import Mathlib

/-!
# kafka-chan: the partition hasher and the replay / produce orchestration

A shallow embedding of `web/web-server.go`.

* Go `uint32` values are natural numbers below `2 ^ 32`; every operation that
  can leave that range (`*`, `+`, `<<`, a conversion) is followed by `% 2 ^ 32`.
* A Go `[]byte` is a `List Byte` with `Byte = Fin 256`; an index expression
  `data[i]` is `index data i`, which is `none` where Go would panic.
* `len(data)` is a non-negative `int`, so `/` and `%` on it are the ones of `Nat`;
  the bitwise expression `length & ^3` is evaluated on `Int`, where `^3 = -4`.
-/

namespace KafkaChan

/-! ## Machine arithmetic -/

/-- One Go `byte`. -/
abbrev Byte := Fin 256

/-- The conversion `uint32(x)` of a non-negative integer. -/
def uint32 (x : Nat) : Nat := x % 2 ^ 32

/-- The product `a * b` on `uint32`. -/
def mul32 (a b : Nat) : Nat := (a * b) % 2 ^ 32

/-- The sum `a + b` on `uint32`. -/
def add32 (a b : Nat) : Nat := (a + b) % 2 ^ 32

/-- The shift `a << s` on `uint32`. -/
def shl32 (a s : Nat) : Nat := (a <<< s) % 2 ^ 32

/-- The index expression `data[i]` for an `int` index: `none` is the run-time
panic "index out of range". -/
def index (data : List Byte) (i : Int) : Option Byte :=
  if i < 0 then none else data[i.toNat]?

/-! ## `murmur2` (web-server.go, lines 322-364) -/

/-- The constant `seed`. -/
def seed : Nat := 0x9747b28c

/-- The mixing constant `m`. -/
def m : Nat := 0x5bd1e995

/-- The mixing constant `r`. -/
def r : Nat := 24

/-- The loop `for i := 0; i < length4; i++ { ... }` of `murmur2`: the first
argument is the number of iterations still to run (`length4 - i`), the second
is `i`, the third the running hash `h`. -/
def murmur2Loop (data : List Byte) : Nat → Nat → Nat → Option Nat
  | 0, _, h => some h
  | n + 1, i, h => do
    let i4 := i * 4
    let b0 ← index data ((i4 : Int) + 0)
    let b1 ← index data ((i4 : Int) + 1)
    let b2 ← index data ((i4 : Int) + 2)
    let b3 ← index data ((i4 : Int) + 3)
    let k := add32 (add32 (add32 (uint32 b0.val &&& 0xff) (shl32 (uint32 b1.val &&& 0xff) 8))
      (shl32 (uint32 b2.val &&& 0xff) 16)) (shl32 (uint32 b3.val &&& 0xff) 24)
    let k := mul32 k m
    let k := k ^^^ (k >>> r)
    let k := mul32 k m
    let h := mul32 h m
    let h := h ^^^ k
    murmur2Loop data n (i + 1) h

/-- The expression `length & ^3` on the `int` value `length`. -/
def lengthAndNot3 (length : Nat) : Int := Int.land (length : Int) (Int.not 3)

/-- The function `murmur2`; `none` is an index-out-of-range panic. -/
def murmur2 (data : List Byte) : Option Nat := do
  let length := data.length
  let h := seed ^^^ uint32 length
  let length4 := length / 4
  let h ← murmur2Loop data length4 0 h
  let extra := length % 4
  let h ←
    if extra ≥ 3 then do
      let b ← index data (lengthAndNot3 length + 2)
      pure (h ^^^ shl32 (uint32 b.val &&& 0xff) 16)
    else pure h
  let h ←
    if extra ≥ 2 then do
      let b ← index data (lengthAndNot3 length + 1)
      pure (h ^^^ shl32 (uint32 b.val &&& 0xff) 8)
    else pure h
  let h ←
    if extra ≥ 1 then do
      let b ← index data (lengthAndNot3 length)
      let h := h ^^^ (uint32 b.val &&& 0xff)
      pure (mul32 h m)
    else pure h
  let h := h ^^^ (h >>> 13)
  let h := mul32 h m
  let h := h ^^^ (h >>> 15)
  pure h

/-! ## The reference hash, as the specification words it -/

/-- The little-endian word of a 4-byte group, byte 0 least significant. -/
def refWord (b0 b1 b2 b3 : Byte) : Nat :=
  b0.val ||| (b1.val <<< 8) ||| (b2.val <<< 16) ||| (b3.val <<< 24)

/-- Mixing of one word: `k = k*m`, `k = k XOR (k >> 24)`, `k = k*m`. -/
def refMix (k : Nat) : Nat :=
  let k := (k * 0x5bd1e995) % 2 ^ 32
  let k := k ^^^ (k >>> 24)
  (k * 0x5bd1e995) % 2 ^ 32

/-- The complete 4-byte groups in order, then the 1-3 trailing bytes. -/
def refBody : List Byte → Nat → Nat
  | b0 :: b1 :: b2 :: b3 :: rest, h =>
    refBody rest (((h * 0x5bd1e995) % 2 ^ 32) ^^^ refMix (refWord b0 b1 b2 b3))
  | [b0, b1, b2], h =>
    ((((h ^^^ (b2.val <<< 16)) ^^^ (b1.val <<< 8)) ^^^ b0.val) * 0x5bd1e995) % 2 ^ 32
  | [b0, b1], h => (((h ^^^ (b1.val <<< 8)) ^^^ b0.val) * 0x5bd1e995) % 2 ^ 32
  | [b0], h => ((h ^^^ b0.val) * 0x5bd1e995) % 2 ^ 32
  | [], h => h

/-- Finalisation: `h = h XOR (h >> 13)`, `h = h*m`, `h = h XOR (h >> 15)`. -/
def refFinal (h : Nat) : Nat :=
  let h := h ^^^ (h >>> 13)
  let h := (h * 0x5bd1e995) % 2 ^ 32
  h ^^^ (h >>> 15)

/-- The reference hash: start from `0x9747b28c XOR len(key)` as a 32-bit value. -/
def murmur2Ref (key : List Byte) : Nat :=
  refFinal (refBody key ((0x9747b28c ^^^ key.length) % 2 ^ 32))

/-- The complete 4-byte groups of the reference only: what the loop computes. -/
def refGroups : List Byte → Nat → Nat
  | b0 :: b1 :: b2 :: b3 :: rest, h =>
    refGroups rest (((h * 0x5bd1e995) % 2 ^ 32) ^^^ refMix (refWord b0 b1 b2 b3))
  | _, h => h

/-! ## `strconv` (Go standard library), base 10 -/

/-- A Go string: a sequence of bytes. Strings the code inspects byte by byte
(`key` of the partition query, the numeric parameters) are modelled this way;
strings that are only passed through (topic, payload, message key) are `String`. -/
abbrev GoString := List Byte

/-- The two causes of a `*strconv.NumError`. -/
inductive NumError where
  | ErrSyntax
  | ErrRange
  deriving DecidableEq, Repr

/-- The helper `lower(c)` of `strconv`: `c | ('x' - 'X')`. -/
def lower (c : Byte) : Nat := c.val ||| 0x20

/-- The digit value `d` that `ParseUint` assigns to the byte `c` (no
underscores, since the base is given explicitly); `none` is the `default`
branch of the switch. -/
def digitVal (c : Byte) : Option Nat :=
  if 48 ≤ c.val ∧ c.val ≤ 57 then some (c.val - 48)
  else if 97 ≤ lower c ∧ lower c ≤ 122 then some (lower c - 97 + 10)
  else none

/-- The loop of `strconv.ParseUint` for base 10: `cutoff = maxUint64/10 + 1`,
`n` is a `uint64`. The result is the pair `(value, err)`. -/
def parseUintLoop (maxVal : Nat) : List Byte → Nat → Nat × Option NumError
  | [], n => (n, none)
  | c :: cs, n =>
    match digitVal c with
    | none => (0, some NumError.ErrSyntax)
    | some d =>
      if d ≥ 10 then (0, some NumError.ErrSyntax)
      else if n ≥ (2 ^ 64 - 1) / 10 + 1 then (maxVal, some NumError.ErrRange)
      else
        let n := (n * 10) % 2 ^ 64
        let n1 := (n + d) % 2 ^ 64
        if n1 < n ∨ n1 > maxVal then (maxVal, some NumError.ErrRange)
        else parseUintLoop maxVal cs n1

/-- The function `strconv.ParseUint(s, 10, bitSize)`. -/
def ParseUint (s : GoString) (bitSize : Nat) : Nat × Option NumError :=
  if s = [] then (0, some NumError.ErrSyntax)
  else parseUintLoop (2 ^ bitSize - 1) s 0

/-- The function `strconv.ParseInt(s, 10, bitSize)`: an optional sign, then
`ParseUint`, then the range check against `cutoff = 1 << (bitSize-1)`. -/
def ParseInt (s : GoString) (bitSize : Nat) : Int × Option NumError :=
  match s with
  | [] => (0, some NumError.ErrSyntax)
  | c :: cs =>
    let neg := c.val = 45
    let s := if c.val = 43 ∨ c.val = 45 then cs else c :: cs
    let (un, err) := ParseUint s bitSize
    if err = some NumError.ErrSyntax then (0, err)
    else
      let cutoff := 2 ^ (bitSize - 1)
      if ¬ neg ∧ un ≥ cutoff then (((cutoff - 1 : Nat) : Int), some NumError.ErrRange)
      else if neg ∧ un > cutoff then (-(cutoff : Int), some NumError.ErrRange)
      else if neg then (-(un : Int), none) else ((un : Int), none)

/-- The function `strconv.Atoi(s)`: `ParseInt(s, 10, 0)` converted to `int`,
with `int` 64 bits wide. -/
def Atoi (s : GoString) : Int × Option NumError := ParseInt s 64

/-- The conversion `int32(x)` of an integer: wrap to the signed 32-bit range. -/
def int32 (x : Int) : Int := (x + 2 ^ 31) % 2 ^ 32 - 2 ^ 31

/-- The conversion `int64(x)` of an integer: wrap to the signed 64-bit range. -/
def int64 (x : Int) : Int := (x + 2 ^ 63) % 2 ^ 64 - 2 ^ 63

/-- The conversion `uint32(x)` of a signed integer. -/
def uint32OfInt (x : Int) : Nat := (x % 2 ^ 32).toNat

/-! ## `queryMsgPartition` (web-server.go, lines 48-67) -/

/-- The run-time panics of the Go code. -/
inductive Panic where
  | indexOutOfRange
  | divideByZero
  | nilDereference
  deriving DecidableEq, Repr

/-- The expression of line 64,
`(murmur2([]byte(key)) & 0x7fffffff) % uint32(p)`; the remainder by zero is
the run-time panic "integer divide by zero". -/
def partitionIdx (key : GoString) (p : Int) : Except Panic Nat :=
  match murmur2 key with
  | none => Except.error Panic.indexOutOfRange
  | some h =>
    if uint32OfInt p = 0 then Except.error Panic.divideByZero
    else Except.ok ((h &&& 0x7fffffff) % uint32OfInt p)

/-- What a run of the handler `queryMsgPartition` leaves behind: an
`http.Error` with a status, the 200 response whose body is formatted from
`key` and `idx`, or a panic before anything is written. -/
inductive HandlerOutcome where
  | httpError (msg : String) (code : Nat)
  | partitionReply (code : Nat) (key : GoString) (idx : Nat)
  | panicked (p : Panic)
  deriving DecidableEq, Repr

/-- The handler `queryMsgPartition` on the form values `key` and `partition`. -/
def queryMsgPartition (key partition : GoString) : HandlerOutcome :=
  if key = [] then
    HandlerOutcome.httpError "key and partition must not be empty" 400
  else
    let partition : GoString := if partition = [] then [49, 50] else partition
    let (p, err) := ParseInt partition 32
    if err ≠ none then HandlerOutcome.httpError "partition parse error" 400
    else
      match partitionIdx key p with
      | Except.error e => HandlerOutcome.panicked e
      | Except.ok idx => HandlerOutcome.partitionReply 200 key idx

/-! ## The broker and the orchestration functions -/

/-- A Go `error` value built with `github.com/pkg/errors`. -/
inductive GoError where
  | new (msg : String)
  | wrap (cause : GoError) (msg : String)
  deriving DecidableEq, Repr

/-- The call `errors.New(msg)`. -/
def errorsNew (msg : String) : Option GoError := some (GoError.new msg)

/-- The call `errors.Wrap(err, msg)`: `nil` for a `nil` error. -/
def errorsWrap (err : Option GoError) (msg : String) : Option GoError :=
  err.map fun e => GoError.wrap e msg

/-- The message `kafkapb.QueryMsgByOffsetRequest`. -/
structure QueryMsgByOffsetRequest where
  KafkaTopic : String
  Partition : Int
  Offset : Int
  deriving DecidableEq, Repr

/-- The message `kafkapb.QueryMsgByOffsetReply`. -/
structure QueryMsgByOffsetReply where
  MsgJson : String
  deriving DecidableEq, Repr

/-- The message `kafkapb.ProduceMsgToTopicRequest`. -/
structure ProduceMsgToTopicRequest where
  KafkaTopic : String
  Partition : Int
  MsgJson : String
  Key : String
  deriving DecidableEq, Repr

/-- The message `kafkapb.ProduceMsgToTopicReply`. -/
structure ProduceMsgToTopicReply where
  Ok : Bool
  deriving DecidableEq, Repr

/-- Modelled from the spec: the generated getter `GetMsgJson` of package
`kafkapb` (not among the sources): the payload of the reply exactly as
returned, the empty string for a nil reply. -/
def GetMsgJson (x : Option QueryMsgByOffsetReply) : String :=
  match x with
  | some reply => reply.MsgJson
  | none => ""

/-- Modelled from the spec: the generated getter `GetOk` of package `kafkapb`
(not among the sources): the acknowledgement flag of the reply, `false` for a
nil reply. -/
def GetOk (x : Option ProduceMsgToTopicReply) : Bool :=
  match x with
  | some reply => reply.Ok
  | none => false

/-- What one broker operation returns: the broker's next state, the reply
pointer (`none` is `nil`) and the error (`none` is `nil`). -/
structure RpcResult (σ : Type) (α : Type) where
  state : σ
  reply : Option α
  err : Option GoError

/-- Modelled from the spec: the MessageBroker capability (interface
`server.Server`, not among the sources), with the two operations the
orchestration uses; `σ` is the broker's own state. -/
structure Server (σ : Type) where
  QueryMsgByOffset : σ → QueryMsgByOffsetRequest → RpcResult σ QueryMsgByOffsetReply
  ProduceMsgToTopic : σ → ProduceMsgToTopicRequest → RpcResult σ ProduceMsgToTopicReply

/-- One invocation of a broker operation. -/
inductive RpcCall where
  | queryMsgByOffset (req : QueryMsgByOffsetRequest)
  | produceMsgToTopic (req : ProduceMsgToTopicRequest)
  deriving DecidableEq, Repr

/-- The broker's state together with the broker calls made so far, oldest first. -/
structure World (σ : Type) where
  state : σ
  calls : List RpcCall

/-- The call `s.rpcSrv.QueryMsgByOffset(ctx, &req)`. -/
def rpcQueryMsgByOffset {σ : Type} (srv : Server σ) (w : World σ) (req : QueryMsgByOffsetRequest) :
    World σ × Option QueryMsgByOffsetReply × Option GoError :=
  let res := srv.QueryMsgByOffset w.state req
  (⟨res.state, w.calls ++ [RpcCall.queryMsgByOffset req]⟩, res.reply, res.err)

/-- The call `s.rpcSrv.ProduceMsgToTopic(ctx, &req)`. -/
def rpcProduceMsgToTopic {σ : Type} (srv : Server σ) (w : World σ) (req : ProduceMsgToTopicRequest) :
    World σ × Option ProduceMsgToTopicReply × Option GoError :=
  let res := srv.ProduceMsgToTopic w.state req
  (⟨res.state, w.calls ++ [RpcCall.produceMsgToTopic req]⟩, res.reply, res.err)

/-- The method `replayMsg` (lines 178-203): the world after the call and the
returned pair `(bool, error)`. -/
def replayMsg {σ : Type} (srv : Server σ) (w : World σ) (topic : String)
    (partition offset : GoString) (key : String) : World σ × Bool × Option GoError :=
  let (p, perr) := Atoi partition
  let (o, oerr) := Atoi offset
  if perr ≠ none ∨ oerr ≠ none then (w, false, errorsNew "parse string error")
  else
    let (w, reply, err) := rpcQueryMsgByOffset srv w
      { KafkaTopic := topic, Partition := int64 p, Offset := int64 o }
    if err ≠ none then (w, false, errorsWrap err "call query msg by offset")
    else
      let (w, resp, err) := rpcProduceMsgToTopic srv w
        { KafkaTopic := topic, Partition := int32 p, MsgJson := GetMsgJson reply, Key := key }
      if err ≠ none then (w, false, errorsWrap err "call produce msg to topic")
      else (w, GetOk resp, none)

/-- The partition of the request built by `produceMsg` (lines 258-263): the
parsed value, or `0` when `ParseInt` reports an error. -/
def produceMsgPartition (partition : GoString) : Int :=
  let (p, err) := ParseInt partition 32
  if err = none then int32 p else 0

/-- The method `produceMsg` (lines 255-271). -/
def produceMsg {σ : Type} (srv : Server σ) (w : World σ) (topic : String)
    (partition : GoString) (key msgJson : String) : World σ × Bool × Option GoError :=
  let (w, reply, err) := rpcProduceMsgToTopic srv w
    { KafkaTopic := topic, Partition := produceMsgPartition partition, Key := key,
      MsgJson := msgJson }
  if err ≠ none then (w, false, errorsWrap err "call rpc")
  else (w, GetOk reply, none)

/-- The method `produceMsgFromJson` (lines 168-176): `resp.Ok` reads a field
through the pointer `resp`, which panics when `resp` is `nil`; the request's
`Partition` keeps its zero value. -/
def produceMsgFromJson {σ : Type} (srv : Server σ) (w : World σ) (topic json key : String) :
    World σ × Except Panic (Bool × Option GoError) :=
  let (w, resp, err) := rpcProduceMsgToTopic srv w
    { KafkaTopic := topic, Partition := 0, MsgJson := json, Key := key }
  match resp with
  | none => (w, Except.error Panic.nilDereference)
  | some reply => (w, Except.ok (reply.Ok, err))

/-- A broker stub without state: fixed answers to the two operations. -/
def stubServer (qReply : Option QueryMsgByOffsetReply) (qErr : Option GoError)
    (pReply : Option ProduceMsgToTopicReply) (pErr : Option GoError) : Server Unit where
  QueryMsgByOffset := fun _ _ => ⟨(), qReply, qErr⟩
  ProduceMsgToTopic := fun _ _ => ⟨(), pReply, pErr⟩

/-- The world before any broker call. -/
def initWorld : World Unit := ⟨(), []⟩

/-! ## What `ParseInt` accepts -/

/-- Whether the byte is an ASCII decimal digit. -/
def isDigit (c : Byte) : Bool := decide (48 ≤ c.val) && decide (c.val ≤ 57)

/-- One step of reading a decimal numeral from the left. -/
def decimalStep (n : Nat) (c : Byte) : Nat := n * 10 + (c.val - 48)

/-- The number a string of decimal digits denotes. -/
def specDecimalValue (ds : List Byte) : Nat := ds.foldl decimalStep 0

/-- The integer a string denotes in base 10: an optional sign `+` or `-`
followed by one or more decimal digits; `none` for every other string. -/
def specDecimalInt (s : GoString) : Option Int :=
  match s with
  | [] => none
  | c :: cs =>
    let ds := if c.val = 43 ∨ c.val = 45 then cs else c :: cs
    if ds ≠ [] ∧ ds.all isDigit = true then
      some (if c.val = 45 then -(specDecimalValue ds : Int) else (specDecimalValue ds : Int))
    else none

/-- The partition the specification gives a produce request: the parsed value
when the string is a base-10 integer in the signed 32-bit range, 0 otherwise. -/
def specProducePartition (partition : GoString) : Int :=
  match specDecimalInt partition with
  | some v => if -2 ^ 31 ≤ v ∧ v ≤ 2 ^ 31 - 1 then v else 0
  | none => 0

/-! ## Arithmetic lemmas -/

theorem byte_and_ff (b : Byte) : uint32 b.val &&& 0xff = b.val := by
  have hb : b.val < 2 ^ 8 := b.isLt
  have h1 : uint32 b.val = b.val := by
    unfold uint32; exact Nat.mod_eq_of_lt (by omega)
  rw [h1]
  exact Nat.and_pow_two_sub_one_of_lt_two_pow hb

theorem shl32_byte (b : Byte) (s : Nat) (hs : s ≤ 24) : shl32 b.val s = b.val <<< s := by
  have hb : b.val < 2 ^ 8 := b.isLt
  unfold shl32
  apply Nat.mod_eq_of_lt
  rw [Nat.shiftLeft_eq]
  calc b.val * 2 ^ s < 2 ^ 8 * 2 ^ s := Nat.mul_lt_mul_of_pos_right hb (Nat.pow_pos (by omega))
    _ = 2 ^ (8 + s) := (Nat.pow_add 2 8 s).symm
    _ ≤ 2 ^ 32 := Nat.pow_le_pow_right (by omega) (by omega)

theorem xor_mod_two_pow (a b n : Nat) : (a ^^^ b) % 2 ^ n = (a % 2 ^ n) ^^^ (b % 2 ^ n) := by
  apply Nat.eq_of_testBit_eq
  intro i
  simp only [Nat.testBit_mod_two_pow, Nat.testBit_xor]
  by_cases h : i < n <;> simp [h]

theorem word_add_eq_or (b0 b1 b2 b3 : Byte) :
    add32 (add32 (add32 b0.val (b1.val <<< 8)) (b2.val <<< 16)) (b3.val <<< 24)
      = refWord b0 b1 b2 b3 := by
  have h0 : b0.val < 2 ^ 8 := b0.isLt
  have h1 : b1.val < 2 ^ 8 := b1.isLt
  have h2 : b2.val < 2 ^ 8 := b2.isLt
  have h3 : b3.val < 2 ^ 8 := b3.isLt
  have e1 : b0.val + b1.val <<< 8 = b0.val ||| b1.val <<< 8 := by
    rw [Nat.shiftLeft_eq, Nat.mul_comm, Nat.add_comm, Nat.mul_add_lt_is_or h0, Nat.lor_comm]
  have l1 : b0.val + b1.val <<< 8 < 2 ^ 16 := by
    rw [Nat.shiftLeft_eq]; omega
  have e2 : b0.val + b1.val <<< 8 + b2.val <<< 16 = (b0.val ||| b1.val <<< 8) ||| b2.val <<< 16 := by
    rw [← e1, Nat.shiftLeft_eq b2.val, Nat.mul_comm, Nat.add_comm, Nat.mul_add_lt_is_or l1, Nat.lor_comm]
  have l2 : b0.val + b1.val <<< 8 + b2.val <<< 16 < 2 ^ 24 := by
    rw [Nat.shiftLeft_eq, Nat.shiftLeft_eq]; omega
  have e3 : b0.val + b1.val <<< 8 + b2.val <<< 16 + b3.val <<< 24
      = ((b0.val ||| b1.val <<< 8) ||| b2.val <<< 16) ||| b3.val <<< 24 := by
    rw [← e2, Nat.shiftLeft_eq b3.val, Nat.mul_comm, Nat.add_comm, Nat.mul_add_lt_is_or l2, Nat.lor_comm]
  have l3 : b0.val + b1.val <<< 8 + b2.val <<< 16 + b3.val <<< 24 < 2 ^ 32 := by
    rw [Nat.shiftLeft_eq, Nat.shiftLeft_eq, Nat.shiftLeft_eq]; omega
  unfold add32 refWord
  rw [Nat.mod_eq_of_lt (a := b0.val + b1.val <<< 8) (by omega), Nat.mod_eq_of_lt (a := b0.val + b1.val <<< 8 + b2.val <<< 16) (by omega), Nat.mod_eq_of_lt l3, e3]

theorem ldiff_three (n : Nat) : Nat.ldiff n 3 = n - n % 4 := by
  apply Nat.eq_of_testBit_eq
  intro i
  have h4 : n - n % 4 = 2 ^ 2 * (n / 2 ^ 2) := by omega
  rw [Nat.testBit_ldiff, h4, Nat.testBit_mul_pow_two, ← Nat.shiftRight_eq_div_pow,
    Nat.testBit_shiftRight]
  by_cases h : i ≥ 2
  · have e : 2 + (i - 2) = i := by omega
    have h3 : Nat.testBit 3 i = false := Nat.testBit_lt_two_pow (by
      calc 3 < 2 ^ 2 := by decide
        _ ≤ 2 ^ i := Nat.pow_le_pow_right (by omega) h)
    simp [h, e, h3]
  · have : i = 0 ∨ i = 1 := by omega
    rcases this with rfl | rfl <;> simp [Nat.testBit]

theorem lengthAndNot3_eq (n : Nat) : lengthAndNot3 n = ((n - n % 4 : Nat) : Int) := by
  unfold lengthAndNot3
  show Int.land (Int.ofNat n) (Int.negSucc 3) = _
  simp only [Int.land]
  rw [ldiff_three]

/-! ## The loop of `murmur2` against the reference -/

theorem index_nat (data : List Byte) (a : Nat) (x : Int) (hx : x = (a : Int)) :
    index data x = data[a]? := by
  subst hx
  simp [index]

theorem index_append (pre rest : List Byte) (a j : Nat) (x : Int) (ha : pre.length = a)
    (hx : x = (a : Int) + (j : Int)) : index (pre ++ rest) x = rest[j]? := by
  rw [index_nat _ (a + j) x (by rw [hx]; push_cast; rfl)]
  subst ha
  rw [List.getElem?_append_right (by omega)]
  congr 1
  omega

theorem murmur2Loop_eq (n : Nat) : ∀ (pre rest : List Byte) (i h : Nat),
    pre.length = i * 4 → rest.length / 4 = n →
    murmur2Loop (pre ++ rest) n i h = some (refGroups rest h) := by
  induction n with
  | zero =>
    intro pre rest i h _ hn
    have hl : rest.length < 4 := by omega
    match rest, hl with
    | [], _ => simp [murmur2Loop, refGroups]
    | [_], _ => simp [murmur2Loop, refGroups]
    | [_, _], _ => simp [murmur2Loop, refGroups]
    | [_, _, _], _ => simp [murmur2Loop, refGroups]
    | _ :: _ :: _ :: _ :: _, hl => simp at hl; omega
  | succ n ih =>
    intro pre rest i h hp hn
    match rest, hn with
    | [], hn => simp at hn
    | [_], hn => simp only [List.length_cons, List.length_nil] at hn; omega
    | [_, _], hn => simp only [List.length_cons, List.length_nil] at hn; omega
    | [_, _, _], hn => simp only [List.length_cons, List.length_nil] at hn; omega
    | b0 :: b1 :: b2 :: b3 :: rest, hn =>
      have hn' : rest.length / 4 = n := by
        simp only [List.length_cons] at hn; omega
      have e0 := index_append pre (b0 :: b1 :: b2 :: b3 :: rest) (i * 4) 0 (((i * 4 : Nat) : Int) + 0)
        hp (by simp)
      have e1 := index_append pre (b0 :: b1 :: b2 :: b3 :: rest) (i * 4) 1 (((i * 4 : Nat) : Int) + 1)
        hp (by simp)
      have e2 := index_append pre (b0 :: b1 :: b2 :: b3 :: rest) (i * 4) 2 (((i * 4 : Nat) : Int) + 2)
        hp (by simp)
      have e3 := index_append pre (b0 :: b1 :: b2 :: b3 :: rest) (i * 4) 3 (((i * 4 : Nat) : Int) + 3)
        hp (by simp)
      have hstep := ih (pre ++ [b0, b1, b2, b3]) rest (i + 1)
        (((h * 0x5bd1e995) % 2 ^ 32) ^^^ refMix (refWord b0 b1 b2 b3))
        (by simp [hp]; omega) hn'
      have happ : pre ++ b0 :: b1 :: b2 :: b3 :: rest = (pre ++ [b0, b1, b2, b3]) ++ rest := by
        simp
      rw [murmur2Loop]
      simp only [e0, e1, e2, e3]
      simp only [List.getElem?_cons_zero, List.getElem?_cons_succ, Option.bind_eq_bind,
        Option.some_bind, byte_and_ff]
      rw [shl32_byte b1 8 (by omega), shl32_byte b2 16 (by omega), shl32_byte b3 24 (by omega),
        word_add_eq_or, happ]
      rw [refGroups]
      exact hstep

theorem refBody_split : ∀ (n : Nat) (data : List Byte) (h : Nat), data.length / 4 = n →
    refBody data h = refBody (data.drop (data.length - data.length % 4)) (refGroups data h) := by
  intro n
  induction n with
  | zero =>
    intro data h hn
    have e : data.length - data.length % 4 = 0 := by omega
    rw [e, List.drop_zero]
    match data, hn with
    | [], _ => simp [refGroups]
    | [_], _ => simp [refGroups]
    | [_, _], _ => simp [refGroups]
    | [_, _, _], _ => simp [refGroups]
    | _ :: _ :: _ :: _ :: _, hn => simp only [List.length_cons] at hn; omega
  | succ n ih =>
    intro data h hn
    match data, hn with
    | [], hn => simp at hn
    | [_], hn => simp only [List.length_cons, List.length_nil] at hn; omega
    | [_, _], hn => simp only [List.length_cons, List.length_nil] at hn; omega
    | [_, _, _], hn => simp only [List.length_cons, List.length_nil] at hn; omega
    | b0 :: b1 :: b2 :: b3 :: rest, hn =>
      have hn' : rest.length / 4 = n := by
        simp only [List.length_cons] at hn; omega
      have e : (b0 :: b1 :: b2 :: b3 :: rest).length - (b0 :: b1 :: b2 :: b3 :: rest).length % 4
          = (rest.length - rest.length % 4) + 4 := by
        simp only [List.length_cons]; omega
      rw [e, refBody, refGroups, ih rest _ hn']
      rfl

theorem index_tail (data : List Byte) (j : Nat) (x : Int)
    (hx : x = lengthAndNot3 data.length + (j : Int)) :
    index data x = (data.drop (data.length - data.length % 4))[j]? := by
  rw [index_nat data (data.length - data.length % 4 + j) x
    (by rw [hx, lengthAndNot3_eq]; push_cast; rfl), List.getElem?_drop]

/-- The code of `murmur2` computes the reference hash, on every key, and no
index expression in it is out of range. -/
theorem murmur2_eq_some_ref (key : List Byte) : murmur2 key = some (murmur2Ref key) := by
  have hloop := murmur2Loop_eq (key.length / 4) [] key 0 (seed ^^^ uint32 key.length) rfl rfl
  rw [List.nil_append] at hloop
  have hseed : seed ^^^ uint32 key.length = (0x9747b28c ^^^ key.length) % 2 ^ 32 := by
    rw [xor_mod_two_pow]; rfl
  have i2 := index_tail key 2 (lengthAndNot3 key.length + 2) (by simp)
  have i1 := index_tail key 1 (lengthAndNot3 key.length + 1) (by simp)
  have i0 := index_tail key 0 (lengthAndNot3 key.length) (by simp)
  have hlen : (key.drop (key.length - key.length % 4)).length = key.length % 4 := by
    rw [List.length_drop]; omega
  have hsplit := refBody_split (key.length / 4) key ((0x9747b28c ^^^ key.length) % 2 ^ 32) rfl
  unfold murmur2 murmur2Ref
  simp only [hloop, i2, i1, i0, Option.bind_eq_bind, Option.some_bind]
  rw [hsplit, ← hseed]
  generalize refGroups key (seed ^^^ uint32 key.length) = g at *
  generalize key.drop (key.length - key.length % 4) = t at *
  have hlt : key.length % 4 < 4 := Nat.mod_lt _ (by omega)
  match t, hlen with
  | [], hlen =>
    simp only [List.length_nil] at hlen
    simp [← hlen, refBody, refFinal, mul32, m]
  | [b0], hlen =>
    simp only [List.length_cons, List.length_nil] at hlen
    simp [← hlen, refBody, refFinal, mul32, m, byte_and_ff]
  | [b0, b1], hlen =>
    simp only [List.length_cons, List.length_nil] at hlen
    simp [← hlen, refBody, refFinal, mul32, m, byte_and_ff, shl32_byte]
  | [b0, b1, b2], hlen =>
    simp only [List.length_cons, List.length_nil] at hlen
    simp [← hlen, refBody, refFinal, mul32, m, byte_and_ff, shl32_byte]
  | _ :: _ :: _ :: _ :: _, hlen =>
    simp only [List.length_cons] at hlen; omega

/-! ## Lemmas on the parsers and conversions -/

theorem Atoi_range (s : GoString) (h : (Atoi s).2 = none) :
    -9223372036854775808 ≤ (Atoi s).1 ∧ (Atoi s).1 ≤ 9223372036854775807 := by
  unfold Atoi ParseInt at h ⊢
  match s with
  | [] => simp at h
  | c :: cs =>
    simp only at h ⊢
    split_ifs at h ⊢ <;> simp_all <;> omega

theorem int32_of_range (x : Int) (h : -2147483648 ≤ x ∧ x ≤ 2147483647) : int32 x = x := by
  unfold int32; omega

theorem int64_of_range (x : Int) (h : -9223372036854775808 ≤ x ∧ x ≤ 9223372036854775807) :
    int64 x = x := by
  unfold int64; omega

theorem int64_Atoi (s : GoString) (p : Int) (h : Atoi s = (p, none)) : int64 p = p := by
  have hr := Atoi_range s (by rw [h])
  rw [h] at hr
  exact int64_of_range p hr

/-! ## `ParseInt` against the decimal reading -/

theorem digitVal_digit (c : Byte) (h : isDigit c = true) : digitVal c = some (c.val - 48) := by
  simp only [isDigit, Bool.and_eq_true, decide_eq_true_eq] at h
  simp [digitVal, h]

theorem digitVal_lt_ten (c : Byte) (d : Nat) (h : digitVal c = some d) (hd : d < 10) :
    isDigit c = true ∧ d = c.val - 48 := by
  unfold digitVal at h
  split_ifs at h with h1 h2
  · simp only [Option.some.injEq] at h
    simp only [isDigit, Bool.and_eq_true, decide_eq_true_eq]
    omega
  · simp only [Option.some.injEq] at h
    omega

theorem foldl_decimalStep_ge (s : List Byte) : ∀ n, n ≤ s.foldl decimalStep n := by
  induction s with
  | nil => intro n; exact Nat.le_refl n
  | cons c cs ih =>
    intro n
    have h := ih (decimalStep n c)
    simp only [List.foldl_cons]
    unfold decimalStep at h ⊢
    omega

theorem parseUintLoop_accepts (maxVal : Nat) (hmax : maxVal < 2 ^ 64) (s : List Byte) :
    ∀ n, s.all isDigit = true → s.foldl decimalStep n ≤ maxVal →
      parseUintLoop maxVal s n = (s.foldl decimalStep n, none) := by
  induction s with
  | nil => intro n _ _; rfl
  | cons c cs ih =>
    intro n hd hle
    simp only [List.all_cons, Bool.and_eq_true] at hd
    have hc : 48 ≤ c.val ∧ c.val ≤ 57 := by
      have := hd.1
      simpa only [isDigit, Bool.and_eq_true, decide_eq_true_eq] using this
    simp only [List.foldl_cons] at hle
    have hge := foldl_decimalStep_ge cs (decimalStep n c)
    have hstep : decimalStep n c = n * 10 + (c.val - 48) := rfl
    have h1 : ¬ (c.val - 48 ≥ 10) := by omega
    have h2 : ¬ (n ≥ (2 ^ 64 - 1) / 10 + 1) := by omega
    have h3 : (n * 10 % 2 ^ 64 + (c.val - 48)) % 2 ^ 64 = decimalStep n c := by omega
    have h4 : ¬ (decimalStep n c < n * 10 % 2 ^ 64 ∨ decimalStep n c > maxVal) := by omega
    rw [parseUintLoop, digitVal_digit c hd.1]
    simp only [h1, h2, if_false, h3]
    rw [if_neg h4, List.foldl_cons]
    exact ih _ hd.2 hle

theorem parseUintLoop_accepted (maxVal : Nat) (s : List Byte) :
    ∀ n, n ≤ maxVal → (parseUintLoop maxVal s n).2 = none →
      s.all isDigit = true ∧ s.foldl decimalStep n ≤ maxVal := by
  induction s with
  | nil =>
    intro n hn _
    exact ⟨rfl, hn⟩
  | cons c cs ih =>
    intro n hn h
    rw [parseUintLoop] at h
    cases hdv : digitVal c with
    | none => simp [hdv] at h
    | some d =>
      simp only [hdv] at h
      by_cases h1 : d ≥ 10
      · rw [if_pos h1] at h; simp at h
      · rw [if_neg h1] at h
        by_cases h2 : n ≥ (2 ^ 64 - 1) / 10 + 1
        · rw [if_pos h2] at h; simp at h
        · rw [if_neg h2] at h
          by_cases h4 : (n * 10 % 2 ^ 64 + d) % 2 ^ 64 < n * 10 % 2 ^ 64
              ∨ (n * 10 % 2 ^ 64 + d) % 2 ^ 64 > maxVal
          · rw [if_pos h4] at h; simp at h
          · rw [if_neg h4] at h
            obtain ⟨hdig, hd⟩ := digitVal_lt_ten c d hdv (by omega)
            have h3 : (n * 10 % 2 ^ 64 + d) % 2 ^ 64 = decimalStep n c := by
              unfold decimalStep; omega
            rw [h3] at h h4
            have := ih _ (by omega) h
            simp only [List.all_cons, List.foldl_cons, hdig, Bool.true_and]
            exact this

theorem parseUintLoop_range (maxVal : Nat) (s : List Byte) :
    ∀ n, (parseUintLoop maxVal s n).2 = some NumError.ErrRange →
      (parseUintLoop maxVal s n).1 = maxVal := by
  induction s with
  | nil => intro n h; simp [parseUintLoop] at h
  | cons c cs ih =>
    intro n h
    rw [parseUintLoop] at h ⊢
    cases hdv : digitVal c with
    | none => simp [hdv] at h
    | some d =>
      simp only [hdv] at h ⊢
      by_cases h1 : d ≥ 10
      · rw [if_pos h1] at h; simp at h
      · rw [if_neg h1] at h ⊢
        by_cases h2 : n ≥ (2 ^ 64 - 1) / 10 + 1
        · rw [if_pos h2]
        · rw [if_neg h2] at h ⊢
          by_cases h4 : (n * 10 % 2 ^ 64 + d) % 2 ^ 64 < n * 10 % 2 ^ 64
              ∨ (n * 10 % 2 ^ 64 + d) % 2 ^ 64 > maxVal
          · rw [if_pos h4]
          · rw [if_neg h4] at h ⊢
            exact ih _ h

theorem ParseUint_none_iff (ds : GoString) (bits : Nat) (hb : bits ≤ 64) :
    (ParseUint ds bits).2 = none ↔
      (ds ≠ [] ∧ ds.all isDigit = true ∧ specDecimalValue ds ≤ 2 ^ bits - 1) := by
  have hmax : 2 ^ bits - 1 < 2 ^ 64 := by
    have : 2 ^ bits ≤ 2 ^ 64 := Nat.pow_le_pow_right (by omega) hb
    have : 0 < 2 ^ bits := Nat.pow_pos (by omega)
    omega
  unfold ParseUint specDecimalValue
  by_cases hds : ds = []
  · simp [hds]
  · rw [if_neg hds]
    constructor
    · intro h
      exact ⟨hds, parseUintLoop_accepted _ ds 0 (Nat.zero_le _) h⟩
    · intro h
      rw [parseUintLoop_accepts _ hmax ds 0 h.2.1 h.2.2]

theorem ParseUint_value (ds : GoString) (bits : Nat) (hb : bits ≤ 64)
    (h : (ParseUint ds bits).2 = none) : (ParseUint ds bits).1 = specDecimalValue ds := by
  have hmax : 2 ^ bits - 1 < 2 ^ 64 := by
    have : 2 ^ bits ≤ 2 ^ 64 := Nat.pow_le_pow_right (by omega) hb
    have : 0 < 2 ^ bits := Nat.pow_pos (by omega)
    omega
  obtain ⟨hds, hd, hle⟩ := (ParseUint_none_iff ds bits hb).1 h
  unfold ParseUint specDecimalValue at *
  rw [if_neg hds, parseUintLoop_accepts _ hmax ds 0 hd hle]

theorem ParseUint_range (ds : GoString) (bits : Nat)
    (h : (ParseUint ds bits).2 = some NumError.ErrRange) : (ParseUint ds bits).1 = 2 ^ bits - 1 := by
  unfold ParseUint at h ⊢
  by_cases hds : ds = []
  · simp [hds] at h
  · rw [if_neg hds] at h ⊢
    exact parseUintLoop_range _ ds 0 h

/-- `ParseInt(s, 10, bitSize)` returns no error exactly when `s` denotes an
integer in the signed `bitSize`-bit range, and then it returns that integer. -/
theorem ParseInt_spec (s : GoString) (bits : Nat) (hb1 : 2 ≤ bits) (hb2 : bits ≤ 64) (v : Int) :
    ParseInt s bits = (v, none) ↔
      (specDecimalInt s = some v ∧ -(2 : Int) ^ (bits - 1) ≤ v ∧ v < (2 : Int) ^ (bits - 1)) := by
  have hpow : 2 ^ bits = 2 * 2 ^ (bits - 1) := by
    rw [← Nat.pow_succ']; congr 1; omega
  have hC2 : 2 ≤ 2 ^ (bits - 1) := by
    calc 2 = 2 ^ 1 := rfl
      _ ≤ 2 ^ (bits - 1) := Nat.pow_le_pow_right (by omega) (by omega)
  have hcast : ((2 : Int) ^ (bits - 1)) = ((2 ^ (bits - 1) : Nat) : Int) := by push_cast; rfl
  rw [hcast]
  match s with
  | [] => simp [ParseInt, specDecimalInt]
  | c :: cs =>
    unfold ParseInt specDecimalInt
    simp only
    generalize hds : (if c.val = 43 ∨ c.val = 45 then cs else c :: cs) = ds
    have hiff := ParseUint_none_iff ds bits hb2
    have hval := ParseUint_value ds bits hb2
    have hrange := ParseUint_range ds bits
    rw [hpow] at hiff hrange
    generalize 2 ^ (bits - 1) = C at *
    rcases hres : ParseUint ds bits with ⟨un, err⟩
    rw [hres] at hiff hval hrange
    simp only at hiff hval hrange ⊢
    cases err with
    | none =>
      have hun := hval rfl
      obtain ⟨h1, h2, h3⟩ := hiff.1 rfl
      have hne : ¬ ((none : Option NumError) = some NumError.ErrSyntax) := by simp
      have hok : ds ≠ [] ∧ ds.all isDigit = true := ⟨h1, h2⟩
      rw [if_neg hne, if_pos hok]
      subst hun
      by_cases hneg : c.val = 45
      · by_cases hgt : specDecimalValue ds > C
        · have e1 : ¬ (¬ (c.val = 45) ∧ specDecimalValue ds ≥ C) := by tauto
          rw [if_neg e1, if_pos ⟨hneg, hgt⟩, if_pos hneg]
          simp only [Prod.mk.injEq, Option.some.injEq]
          constructor
          · intro h; exact absurd h.2 (by simp)
          · intro h; omega
        · have e1 : ¬ (¬ (c.val = 45) ∧ specDecimalValue ds ≥ C) := by tauto
          have e2 : ¬ (c.val = 45 ∧ specDecimalValue ds > C) := by tauto
          rw [if_neg e1, if_neg e2, if_pos hneg, if_pos hneg]
          simp only [Prod.mk.injEq, Option.some.injEq, and_true]
          constructor
          · intro h; omega
          · intro h; omega
      · by_cases hge : specDecimalValue ds ≥ C
        · rw [if_pos ⟨hneg, hge⟩, if_neg hneg]
          simp only [Prod.mk.injEq, Option.some.injEq]
          constructor
          · intro h; exact absurd h.2 (by simp)
          · intro h; omega
        · have e1 : ¬ (¬ (c.val = 45) ∧ specDecimalValue ds ≥ C) := by tauto
          have e2 : ¬ (c.val = 45 ∧ specDecimalValue ds > C) := by tauto
          rw [if_neg e1, if_neg e2, if_neg hneg, if_neg hneg]
          simp only [Prod.mk.injEq, Option.some.injEq, and_true]
          constructor
          · intro h; omega
          · intro h; omega
    | some e =>
      have hnot : ¬ (ds ≠ [] ∧ ds.all isDigit = true ∧ specDecimalValue ds ≤ 2 * C - 1) := by
        intro h; have := hiff.2 h; simp at this
      cases e with
      | ErrSyntax =>
        simp only [if_true, Prod.mk.injEq]
        constructor
        · intro h; exact absurd h.2 (by simp)
        · intro h
          exfalso
          apply hnot
          by_cases hok : ds ≠ [] ∧ ds.all isDigit = true
          · rw [if_pos hok] at h
            refine ⟨hok.1, hok.2, ?_⟩
            obtain ⟨hv, hlo, hhi⟩ := h
            simp only [Option.some.injEq] at hv
            split_ifs at hv <;> omega
          · rw [if_neg hok] at h
            exact absurd h.1 (by simp)
      | ErrRange =>
        have hun := hrange rfl
        subst hun
        have hne : ¬ (some NumError.ErrRange = some NumError.ErrSyntax) := by simp
        rw [if_neg hne]
        constructor
        · intro h
          exfalso
          split_ifs at h with h1 h2 h3
          · simp at h
          · simp at h
          · omega
          · omega
        · intro h
          exfalso
          apply hnot
          by_cases hok : ds ≠ [] ∧ ds.all isDigit = true
          · rw [if_pos hok] at h
            refine ⟨hok.1, hok.2, ?_⟩
            obtain ⟨hv, hlo, hhi⟩ := h
            simp only [Option.some.injEq] at hv
            split_ifs at hv <;> omega
          · rw [if_neg hok] at h
            exact absurd h.1 (by simp)

theorem produceMsgPartition_eq_spec (partition : GoString) :
    produceMsgPartition partition = specProducePartition partition := by
  unfold produceMsgPartition specProducePartition
  rcases hres : ParseInt partition 32 with ⟨v, err⟩
  cases err with
  | none =>
    obtain ⟨hs, hlo, hhi⟩ := (ParseInt_spec partition 32 (by omega) (by omega) v).1 hres
    have hr : -2 ^ 31 ≤ v ∧ v ≤ 2 ^ 31 - 1 := by
      constructor
      · simpa using hlo
      · have : v < 2 ^ 31 := by simpa using hhi
        omega
    simp only [hs, if_pos hr, if_true]
    exact int32_of_range v (by omega)
  | some e =>
    have hne : ¬ (some e = (none : Option NumError)) := by simp
    simp only [if_neg hne]
    cases hs : specDecimalInt partition with
    | none => rfl
    | some v' =>
      by_cases hr : -2 ^ 31 ≤ v' ∧ v' ≤ 2 ^ 31 - 1
      · exfalso
        have := (ParseInt_spec partition 32 (by omega) (by omega) v').2
          ⟨hs, by simpa using hr.1, by
            have : v' < 2 ^ 31 := by omega
            simpa using this⟩
        rw [hres] at this
        simp at this
      · simp only [if_neg hr]

theorem Atoi_error_of_not_decimal (s : GoString) (h : specDecimalInt s = none) :
    (Atoi s).2 ≠ none := by
  intro hn
  have hspec := (ParseInt_spec s 64 (by omega) (by omega) (Atoi s).1).1
    (by unfold Atoi at hn ⊢; exact Prod.ext rfl hn)
  rw [h] at hspec
  exact absurd hspec.1 (by simp)

/-! ## The partition hasher -/

/-- C1: on every key, the empty one included, `murmur2` runs without an index
out of range and returns the reference hash of the specification; the word the
code composes by addition is the little-endian word, and the tail index
`length & ^3` is the start of the trailing bytes. -/
theorem murmur2_refines_reference (key : List Byte) :
    murmur2 key = some (murmur2Ref key)
      ∧ lengthAndNot3 key.length = ((4 * (key.length / 4) : Nat) : Int)
      ∧ ∀ b0 b1 b2 b3 : Byte,
          add32 (add32 (add32 (uint32 b0.val &&& 0xff) (shl32 (uint32 b1.val &&& 0xff) 8))
            (shl32 (uint32 b2.val &&& 0xff) 16)) (shl32 (uint32 b3.val &&& 0xff) 24)
            = refWord b0 b1 b2 b3 := by
  refine ⟨murmur2_eq_some_ref key, ?_, ?_⟩
  · rw [lengthAndNot3_eq]
    congr 1
    omega
  · intro b0 b1 b2 b3
    rw [byte_and_ff, byte_and_ff, byte_and_ff, byte_and_ff, shl32_byte b1 8 (by omega),
      shl32_byte b2 16 (by omega), shl32_byte b3 24 (by omega), word_add_eq_or]

/-- C2: `murmur2` of "abc" is 479470107 and of "21" is 3321034988, the signed
32-bit value -973932308; with 12 partitions the handler answers partition 3
for "abc" and partition 0 for "21". -/
theorem murmur2_reference_vectors :
    murmur2 [0x61, 0x62, 0x63] = some 479470107
      ∧ murmur2 [0x32, 0x31] = some 3321034988
      ∧ ((3321034988 : Int) - 2 ^ 32 = -973932308)
      ∧ partitionIdx [0x61, 0x62, 0x63] 12 = Except.ok 3
      ∧ partitionIdx [0x32, 0x31] 12 = Except.ok 0
      ∧ queryMsgPartition [0x61, 0x62, 0x63] [0x31, 0x32]
          = HandlerOutcome.partitionReply 200 [0x61, 0x62, 0x63] 3
      ∧ queryMsgPartition [0x32, 0x31] []
          = HandlerOutcome.partitionReply 200 [0x32, 0x31] 0 := by
  have habc : murmur2 [0x61, 0x62, 0x63] = some 479470107 := by
    rw [murmur2_eq_some_ref]; decide
  have h21 : murmur2 [0x32, 0x31] = some 3321034988 := by
    rw [murmur2_eq_some_ref]; decide
  have pabc : partitionIdx [0x61, 0x62, 0x63] 12 = Except.ok 3 := by
    have hu : uint32OfInt 12 = 12 := by decide
    rw [partitionIdx, habc]
    simp only [hu]
    congr 1
  have p21 : partitionIdx [0x32, 0x31] 12 = Except.ok 0 := by
    have hu : uint32OfInt 12 = 12 := by decide
    rw [partitionIdx, h21]
    simp only [hu]
    congr 1
  have hparse : ParseInt [0x31, 0x32] 32 = (12, none) := by decide
  refine ⟨habc, h21, by decide, pabc, p21, ?_, ?_⟩
  · rw [queryMsgPartition]
    simp [hparse, pabc]
  · rw [queryMsgPartition]
    simp [hparse, p21]

theorem uint32OfInt_pos (n : Int) (h1 : 1 ≤ n) (h2 : n ≤ 2 ^ 31 - 1) :
    uint32OfInt n = n.toNat ∧ uint32OfInt n ≠ 0 := by
  unfold uint32OfInt
  constructor <;> omega

/-- C3: for every key and every partition count `1 ≤ n ≤ 2^31 - 1`, the index
expression of `queryMsgPartition` is defined (no panic) and its value lies in
`[0, n)`; for a non-empty key the handler answers with that index. -/
theorem partitionIdx_in_range (key : GoString) (n : Int) (h1 : 1 ≤ n) (h2 : n ≤ 2 ^ 31 - 1) :
    ∃ idx : Nat, partitionIdx key n = Except.ok idx ∧ (idx : Int) < n
      ∧ idx = (murmur2Ref key &&& 0x7fffffff) % n.toNat
      ∧ ∀ partition : GoString, key ≠ [] → partition ≠ [] → ParseInt partition 32 = (n, none) →
          queryMsgPartition key partition = HandlerOutcome.partitionReply 200 key idx := by
  obtain ⟨hu, hne⟩ := uint32OfInt_pos n h1 h2
  have hidx : partitionIdx key n = Except.ok ((murmur2Ref key &&& 0x7fffffff) % n.toNat) := by
    rw [partitionIdx, murmur2_eq_some_ref]
    simp only [hu] at hne ⊢
    rw [if_neg hne]
  refine ⟨(murmur2Ref key &&& 0x7fffffff) % n.toNat, hidx, ?_, rfl, ?_⟩
  · have hlt : (murmur2Ref key &&& 0x7fffffff) % n.toNat < n.toNat := Nat.mod_lt _ (by omega)
    omega
  · intro partition hk hp hparse
    rw [queryMsgPartition]
    simp [hk, hp, hparse, hidx]

/-- Witness of C3: the key "abc" with 12 partitions. -/
theorem partitionIdx_in_range_witness :
    (1 : Int) ≤ 12 ∧ (12 : Int) ≤ 2 ^ 31 - 1 ∧
      ∃ idx : Nat, partitionIdx [0x61, 0x62, 0x63] 12 = Except.ok idx ∧ (idx : Int) < 12
        ∧ idx = (murmur2Ref [0x61, 0x62, 0x63] &&& 0x7fffffff) % (12 : Int).toNat
        ∧ ∀ partition : GoString, ([0x61, 0x62, 0x63] : GoString) ≠ [] → partition ≠ [] →
            ParseInt partition 32 = (12, none) →
            queryMsgPartition [0x61, 0x62, 0x63] partition
              = HandlerOutcome.partitionReply 200 [0x61, 0x62, 0x63] idx :=
  ⟨by decide, by decide, partitionIdx_in_range [0x61, 0x62, 0x63] 12 (by decide) (by decide)⟩

/-- C4, refuted as stated: the partition count "-1" is parsed without error and
the handler answers 200 with a partition index for the key "abc". -/
theorem queryMsgPartition_negative_count_answers :
    ((-1 : Int) ≤ 0)
      ∧ ParseInt [0x2d, 0x31] 32 = (-1, none)
      ∧ partitionIdx [0x61, 0x62, 0x63] (-1) = Except.ok 479470107
      ∧ queryMsgPartition [0x61, 0x62, 0x63] [0x2d, 0x31]
          = HandlerOutcome.partitionReply 200 [0x61, 0x62, 0x63] 479470107 := by
  have hparse : ParseInt [0x2d, 0x31] 32 = (-1, none) := by decide
  have hidx : partitionIdx [0x61, 0x62, 0x63] (-1) = Except.ok 479470107 := by
    have hu : uint32OfInt (-1) = 4294967295 := by decide
    have hm : murmur2Ref [0x61, 0x62, 0x63] = 479470107 := by decide
    rw [partitionIdx, murmur2_eq_some_ref, hm]
    simp only [hu]
    congr 1
  refine ⟨by decide, hparse, hidx, ?_⟩
  rw [queryMsgPartition]
  simp [hparse, hidx]

/-- C4 as amended: for the partition count 0 the index expression panics
(integer divide by zero) and no index is returned; for a negative count in the
`int32` range nothing fails, the divisor is `2^32 + n` and the index returned
is the masked hash itself; the handler, given a non-empty key and a partition
string parsed to `n`, ends accordingly. -/
theorem partitionIdx_nonpositive (key : GoString) (n : Int) (hlo : -2 ^ 31 ≤ n) (hn : n ≤ 0) :
    partitionIdx key n =
        (if n = 0 then Except.error Panic.divideByZero
          else Except.ok (murmur2Ref key &&& 0x7fffffff))
      ∧ ∀ partition : GoString, key ≠ [] → partition ≠ [] → ParseInt partition 32 = (n, none) →
          queryMsgPartition key partition =
            if n = 0 then HandlerOutcome.panicked Panic.divideByZero
            else HandlerOutcome.partitionReply 200 key (murmur2Ref key &&& 0x7fffffff) := by
  have hidx : partitionIdx key n =
      (if n = 0 then Except.error Panic.divideByZero
        else Except.ok (murmur2Ref key &&& 0x7fffffff)) := by
    rw [partitionIdx, murmur2_eq_some_ref]
    by_cases h0 : n = 0
    · subst h0
      simp [uint32OfInt]
    · have hu : (2 : Nat) ^ 31 ≤ uint32OfInt n := by
        unfold uint32OfInt; omega
      have hm : murmur2Ref key &&& 0x7fffffff < 2 ^ 31 :=
        Nat.and_lt_two_pow _ (by norm_num)
      have hne : uint32OfInt n ≠ 0 := by omega
      simp only [hne, h0, if_false]
      rw [Nat.mod_eq_of_lt (by omega)]
  refine ⟨hidx, ?_⟩
  intro partition hk hp hparse
  rw [queryMsgPartition]
  by_cases h0 : n = 0
  · subst h0
    rw [if_pos rfl] at hidx
    simp [hk, hp, hparse, hidx]
  · rw [if_neg h0] at hidx
    simp [hk, hp, hparse, hidx, h0]

/-- Witness of amended C4: the key "abc" with partition count 0. -/
theorem partitionIdx_nonpositive_witness :
    (-2 ^ 31 ≤ (0 : Int)) ∧ ((0 : Int) ≤ 0) ∧
      (partitionIdx [0x61, 0x62, 0x63] 0 =
          (if (0 : Int) = 0 then Except.error Panic.divideByZero
            else Except.ok (murmur2Ref [0x61, 0x62, 0x63] &&& 0x7fffffff))
        ∧ ∀ partition : GoString, ([0x61, 0x62, 0x63] : GoString) ≠ [] → partition ≠ [] →
            ParseInt partition 32 = (0, none) →
            queryMsgPartition [0x61, 0x62, 0x63] partition =
              if (0 : Int) = 0 then HandlerOutcome.panicked Panic.divideByZero
              else HandlerOutcome.partitionReply 200 [0x61, 0x62, 0x63]
                (murmur2Ref [0x61, 0x62, 0x63] &&& 0x7fffffff)) :=
  ⟨by decide, by decide, partitionIdx_nonpositive [0x61, 0x62, 0x63] 0 (by decide) (by decide)⟩

/-! ## The replay and produce orchestration -/

/-- C5: when both numeric parameters parse and the broker's query-by-offset
call fails with the error `e`, `replayMsg` returns `(false, err)` with `err`
wrapping `e`, and the only broker call made is that query: produce is never
invoked. -/
theorem replayMsg_query_failure {σ : Type} (srv : Server σ) (w : World σ) (topic key : String)
    (partition offset : GoString) (p o : Int) (e : GoError)
    (hp : Atoi partition = (p, none)) (ho : Atoi offset = (o, none))
    (hq : (srv.QueryMsgByOffset w.state ⟨topic, p, o⟩).err = some e) :
    (replayMsg srv w topic partition offset key).2
        = (false, some (GoError.wrap e "call query msg by offset"))
      ∧ (replayMsg srv w topic partition offset key).1.calls
        = w.calls ++ [RpcCall.queryMsgByOffset ⟨topic, p, o⟩]
      ∧ ∀ req, RpcCall.produceMsgToTopic req ∈ (replayMsg srv w topic partition offset key).1.calls
          → RpcCall.produceMsgToTopic req ∈ w.calls := by
  have e1 := int64_Atoi partition p hp
  have e2 := int64_Atoi offset o ho
  have hrun : replayMsg srv w topic partition offset key
      = (⟨(srv.QueryMsgByOffset w.state ⟨topic, p, o⟩).state,
          w.calls ++ [RpcCall.queryMsgByOffset ⟨topic, p, o⟩]⟩,
        false, some (GoError.wrap e "call query msg by offset")) := by
    simp [replayMsg, hp, ho, rpcQueryMsgByOffset, e1, e2, hq, errorsWrap]
  rw [hrun]
  refine ⟨rfl, rfl, ?_⟩
  intro req hmem
  simpa using hmem

/-- Witness of C5: replaying ("orders", "3", "42", "new-key") against a broker
whose query fails. -/
theorem replayMsg_query_failure_witness :
    (replayMsg (stubServer none (some (GoError.new "broker down")) (some ⟨true⟩) none) initWorld
        "orders" [0x33] [0x34, 0x32] "new-key").2
        = (false, some (GoError.wrap (GoError.new "broker down") "call query msg by offset"))
      ∧ (replayMsg (stubServer none (some (GoError.new "broker down")) (some ⟨true⟩) none) initWorld
        "orders" [0x33] [0x34, 0x32] "new-key").1.calls
        = initWorld.calls ++ [RpcCall.queryMsgByOffset ⟨"orders", 3, 42⟩]
      ∧ ∀ req, RpcCall.produceMsgToTopic req ∈
          (replayMsg (stubServer none (some (GoError.new "broker down")) (some ⟨true⟩) none)
            initWorld "orders" [0x33] [0x34, 0x32] "new-key").1.calls
          → RpcCall.produceMsgToTopic req ∈ initWorld.calls :=
  replayMsg_query_failure (stubServer none (some (GoError.new "broker down")) (some ⟨true⟩) none)
    initWorld "orders" "new-key" [0x33] [0x34, 0x32] 3 42 (GoError.new "broker down")
    (by decide) (by decide) rfl

/-- C6, refuted as stated: for the partition string "4294967299", which `Atoi`
accepts, query-by-offset is called with partition 4294967299 and produce with
partition 3. -/
theorem replayMsg_partition_truncated :
    Atoi [0x34, 0x32, 0x39, 0x34, 0x39, 0x36, 0x37, 0x32, 0x39, 0x39] = (4294967299, none)
      ∧ Atoi [0x34, 0x32] = (42, none)
      ∧ (replayMsg (stubServer (some ⟨"\x7b\"x\":1\x7d"⟩) none (some ⟨true⟩) none) initWorld "orders"
          [0x34, 0x32, 0x39, 0x34, 0x39, 0x36, 0x37, 0x32, 0x39, 0x39] [0x34, 0x32] "new-key").1.calls
        = [RpcCall.queryMsgByOffset ⟨"orders", 4294967299, 42⟩,
           RpcCall.produceMsgToTopic ⟨"orders", 3, "\x7b\"x\":1\x7d", "new-key"⟩]
      ∧ (4294967299 : Int) ≠ 3 := by
  refine ⟨by decide, by decide, by decide, by decide⟩

/-- C6 as amended: when both numeric parameters parse and query-by-offset
succeeds, the broker calls made are the query with partition `p` followed by
exactly one produce with the same topic, the partition `int32(p)`, the payload
of the reply unchanged and the new key; `int32(p)` is `p` whenever `p` is in
the signed 32-bit range. -/
theorem replayMsg_produce_request {σ : Type} (srv : Server σ) (w : World σ) (topic key : String)
    (partition offset : GoString) (p o : Int)
    (hp : Atoi partition = (p, none)) (ho : Atoi offset = (o, none))
    (hq : (srv.QueryMsgByOffset w.state ⟨topic, p, o⟩).err = none) :
    (replayMsg srv w topic partition offset key).1.calls
        = w.calls ++ [RpcCall.queryMsgByOffset ⟨topic, p, o⟩,
            RpcCall.produceMsgToTopic
              ⟨topic, int32 p, GetMsgJson (srv.QueryMsgByOffset w.state ⟨topic, p, o⟩).reply, key⟩]
      ∧ (∀ s, (srv.QueryMsgByOffset w.state ⟨topic, p, o⟩).reply = some ⟨s⟩ →
          GetMsgJson (srv.QueryMsgByOffset w.state ⟨topic, p, o⟩).reply = s)
      ∧ (-2 ^ 31 ≤ p → p ≤ 2 ^ 31 - 1 → int32 p = p) := by
  have e1 := int64_Atoi partition p hp
  have e2 := int64_Atoi offset o ho
  refine ⟨?_, ?_, ?_⟩
  · by_cases hpe : (srv.ProduceMsgToTopic (srv.QueryMsgByOffset w.state ⟨topic, p, o⟩).state
        ⟨topic, int32 p, GetMsgJson (srv.QueryMsgByOffset w.state ⟨topic, p, o⟩).reply, key⟩).err = none
    · simp [replayMsg, hp, ho, rpcQueryMsgByOffset, rpcProduceMsgToTopic, e1, e2, hq, hpe]
    · simp [replayMsg, hp, ho, rpcQueryMsgByOffset, rpcProduceMsgToTopic, e1, e2, hq, hpe]
  · intro s hs
    rw [hs]; rfl
  · intro h1 h2
    exact int32_of_range p (by omega)

/-- Witness of amended C6: replay("orders", "3", "42", "new-key") with payload
`{"x":1}` produces ("orders", 3, `{"x":1}`, "new-key"). -/
theorem replayMsg_produce_request_witness :
    (replayMsg (stubServer (some ⟨"\x7b\"x\":1\x7d"⟩) none (some ⟨true⟩) none) initWorld
        "orders" [0x33] [0x34, 0x32] "new-key").1.calls
      = [RpcCall.queryMsgByOffset ⟨"orders", 3, 42⟩,
         RpcCall.produceMsgToTopic ⟨"orders", 3, "\x7b\"x\":1\x7d", "new-key"⟩] :=
  ((replayMsg_produce_request (stubServer (some ⟨"\x7b\"x\":1\x7d"⟩) none (some ⟨true⟩) none)
    initWorld "orders" "new-key" [0x33] [0x34, 0x32] 3 42 (by decide) (by decide) rfl).1).trans
    (by decide)

/-- C7: when both numeric parameters parse, query-by-offset returns no error
and produce returns no error, `replayMsg` returns `(ok, nil)` where `ok` is
the acknowledgement flag of the produce reply: a reply `{Ok: ok}` gives
`(ok, nil)`, so a negative acknowledgement is `(false, nil)`, not an error. -/
theorem replayMsg_returns_ack {σ : Type} (srv : Server σ) (w : World σ) (topic key : String)
    (partition offset : GoString) (p o : Int)
    (hp : Atoi partition = (p, none)) (ho : Atoi offset = (o, none))
    (hq : (srv.QueryMsgByOffset w.state ⟨topic, p, o⟩).err = none)
    (hperr : (srv.ProduceMsgToTopic (srv.QueryMsgByOffset w.state ⟨topic, p, o⟩).state
      ⟨topic, int32 p, GetMsgJson (srv.QueryMsgByOffset w.state ⟨topic, p, o⟩).reply,
        key⟩).err = none) :
    (replayMsg srv w topic partition offset key).2
        = (GetOk (srv.ProduceMsgToTopic (srv.QueryMsgByOffset w.state ⟨topic, p, o⟩).state
            ⟨topic, int32 p, GetMsgJson (srv.QueryMsgByOffset w.state ⟨topic, p, o⟩).reply,
              key⟩).reply, none)
      ∧ ∀ ok : Bool,
          (srv.ProduceMsgToTopic (srv.QueryMsgByOffset w.state ⟨topic, p, o⟩).state
            ⟨topic, int32 p, GetMsgJson (srv.QueryMsgByOffset w.state ⟨topic, p, o⟩).reply,
              key⟩).reply = some ⟨ok⟩ →
          (replayMsg srv w topic partition offset key).2 = (ok, none) := by
  have e1 := int64_Atoi partition p hp
  have e2 := int64_Atoi offset o ho
  have hrun : (replayMsg srv w topic partition offset key).2
      = (GetOk (srv.ProduceMsgToTopic (srv.QueryMsgByOffset w.state ⟨topic, p, o⟩).state
          ⟨topic, int32 p, GetMsgJson (srv.QueryMsgByOffset w.state ⟨topic, p, o⟩).reply,
            key⟩).reply, none) := by
    simp [replayMsg, hp, ho, rpcQueryMsgByOffset, rpcProduceMsgToTopic, e1, e2, hq, hperr]
  refine ⟨hrun, ?_⟩
  intro ok hok
  rw [hrun, hok]
  rfl

/-- Witness of C7: the broker accepts the produce call and reports `ok=false`;
the result is `(false, nil)`. -/
theorem replayMsg_returns_ack_witness :
    (replayMsg (stubServer (some ⟨"\x7b\"x\":1\x7d"⟩) none (some ⟨false⟩) none) initWorld
      "orders" [0x33] [0x34, 0x32] "new-key").2 = (false, none) :=
  (replayMsg_returns_ack (stubServer (some ⟨"\x7b\"x\":1\x7d"⟩) none (some ⟨false⟩) none)
    initWorld "orders" "new-key" [0x33] [0x34, 0x32] 3 42 (by decide) (by decide) rfl rfl).2
    false rfl

/-- C8: when the partition string or the offset string is rejected by `Atoi`,
`replayMsg` returns `(false, "parse string error")` and leaves the world as it
was: no broker call is made, neither query-by-offset nor produce. -/
theorem replayMsg_parse_failure {σ : Type} (srv : Server σ) (w : World σ) (topic key : String)
    (partition offset : GoString)
    (h : (Atoi partition).2 ≠ none ∨ (Atoi offset).2 ≠ none) :
    (replayMsg srv w topic partition offset key).2
        = (false, some (GoError.new "parse string error"))
      ∧ (replayMsg srv w topic partition offset key).1.calls = w.calls
      ∧ (replayMsg srv w topic partition offset key).1.state = w.state := by
  have hrun : replayMsg srv w topic partition offset key
      = (w, false, some (GoError.new "parse string error")) := by
    unfold replayMsg
    simp only [errorsNew]
    rw [if_pos h]
  rw [hrun]
  exact ⟨rfl, rfl, rfl⟩

/-- Witness of C8: the partition string "abc". -/
theorem replayMsg_parse_failure_witness :
    ((Atoi [0x61, 0x62, 0x63]).2 ≠ none ∨ (Atoi [0x34, 0x32]).2 ≠ none)
      ∧ (replayMsg (stubServer (some ⟨"\x7b\"x\":1\x7d"⟩) none (some ⟨true⟩) none) initWorld
          "orders" [0x61, 0x62, 0x63] [0x34, 0x32] "new-key").2
        = (false, some (GoError.new "parse string error"))
      ∧ (replayMsg (stubServer (some ⟨"\x7b\"x\":1\x7d"⟩) none (some ⟨true⟩) none) initWorld
          "orders" [0x61, 0x62, 0x63] [0x34, 0x32] "new-key").1.calls = initWorld.calls
      ∧ (replayMsg (stubServer (some ⟨"\x7b\"x\":1\x7d"⟩) none (some ⟨true⟩) none) initWorld
          "orders" [0x61, 0x62, 0x63] [0x34, 0x32] "new-key").1.state = initWorld.state :=
  ⟨Or.inl (by decide),
    replayMsg_parse_failure (stubServer (some ⟨"\x7b\"x\":1\x7d"⟩) none (some ⟨true⟩) none)
      initWorld "orders" "new-key" [0x61, 0x62, 0x63] [0x34, 0x32] (Or.inl (by decide))⟩

/-- C9: `produceMsg` makes exactly one broker call, a produce with the given
topic, key and payload and with the partition equal to the parsed value when
the string is a base-10 integer in the signed 32-bit range and to 0 otherwise
(the empty string included); the result is `(GetOk(reply), nil)` when the
broker returns no error and `(false, err)` with `err` wrapping the broker's
error otherwise, so the partition string never makes `produceMsg` return an
error. -/
theorem produceMsg_request_and_result {σ : Type} (srv : Server σ) (w : World σ)
    (topic key msgJson : String) (partition : GoString) :
    (produceMsg srv w topic partition key msgJson).1.calls
        = w.calls ++ [RpcCall.produceMsgToTopic
            ⟨topic, specProducePartition partition, msgJson, key⟩]
      ∧ (produceMsg srv w topic partition key msgJson).2
        = (match (srv.ProduceMsgToTopic w.state
              ⟨topic, specProducePartition partition, msgJson, key⟩).err with
          | none => (GetOk (srv.ProduceMsgToTopic w.state
              ⟨topic, specProducePartition partition, msgJson, key⟩).reply, none)
          | some e => (false, some (GoError.wrap e "call rpc")))
      ∧ specProducePartition [] = 0
      ∧ (specDecimalInt partition = none → specProducePartition partition = 0) := by
  have hpart := produceMsgPartition_eq_spec partition
  refine ⟨?_, ?_, rfl, ?_⟩
  · unfold produceMsg
    simp only [rpcProduceMsgToTopic, hpart]
    split_ifs <;> rfl
  · unfold produceMsg
    simp only [rpcProduceMsgToTopic, hpart]
    cases herr : (srv.ProduceMsgToTopic w.state
      ⟨topic, specProducePartition partition, msgJson, key⟩).err with
    | none => simp
    | some e => simp [errorsWrap]
  · intro h
    unfold specProducePartition
    rw [h]

/-- C10, the code at the failing input: the broker's produce fails with an
error and a nil reply, and `produceMsgFromJson` panics on `resp.Ok` instead of
returning `(false, err)`; the produce call has been made. -/
theorem produceMsgFromJson_nil_reply_panics :
    (produceMsgFromJson (stubServer none none none (some (GoError.new "broker down"))) initWorld
        "orders" "\x7b\"x\":1\x7d" "k").2 = Except.error Panic.nilDereference
      ∧ (produceMsgFromJson (stubServer none none none (some (GoError.new "broker down"))) initWorld
        "orders" "\x7b\"x\":1\x7d" "k").1.calls
        = [RpcCall.produceMsgToTopic ⟨"orders", 0, "\x7b\"x\":1\x7d", "k"⟩] := by
  exact ⟨rfl, rfl⟩

end KafkaChan
